import Mathlib

/-!
# Verification of the rm-project-explorer front end

Shallow embedding of the core logic of `ProjectsGrid` (the project explorer
front end) and of the API client (`projectsApi`), together with proofs of the
frozen claims about it.

Conventions of the embedding:
* JavaScript strings are Lean `String`s; the JavaScript relational operators
  `<` / `>` on strings compare code units, embedded here as `strLt`
  (lexicographic on code points; identical to code-unit order on the basic
  multilingual plane, which covers every identifier this program handles).
* JavaScript numbers appearing in comparisons are embedded as `Option Int`,
  with `none` standing for `NaN` (the possible result of
  `new Date(s).getTime()` on an unparseable date string).
* `Array.prototype.sort` is a stable sort whose result, for a consistent
  comparator `c`, is the unique stable reordering sorted by `c`; it is
  embedded as `List.mergeSort` with the weak order `fun a b => c a b ≤ 0`.
* `URLSearchParams` is embedded as an association list `List (String × String)`
  in entry order; `get` returns the first value for a key, `set` overwrites
  the first entry and drops the remaining entries for that key (appending at
  the end when the key is absent), `delete` drops every entry for the key.
* A JavaScript `Set` is embedded as a duplicate-free list in insertion order.
-/

/-- Lexicographic (code-point) order on character lists: the JavaScript
string `<` operator. -/
def lexLt : List Char → List Char → Bool
  | [], [] => false
  | [], _ :: _ => true
  | _ :: _, [] => false
  | a :: as, b :: bs =>
    if a.toNat < b.toNat then true
    else if b.toNat < a.toNat then false
    else lexLt as bs

/-- JavaScript string comparison `s < t`. -/
def strLt (s t : String) : Bool := lexLt s.data t.data

/-- A JavaScript value appearing as a sort key: a string, a number
(`none` = `NaN`), or `undefined` (an absent object property). -/
inductive JSVal where
  | str (s : String)
  | num (n : Option Int)
  | jsUndefined
deriving DecidableEq, Repr

/-- JavaScript strict equality `===` restricted to the values that occur as
sort keys.  `NaN === x` is `false` for every `x` (including `NaN` itself);
`undefined === undefined` is `true`; values of different types are never
strictly equal. -/
def jsStrictEq : JSVal → JSVal → Bool
  | .str s, .str t => s = t
  | .num (some a), .num (some b) => a = b
  | .num _, .num _ => false
  | .jsUndefined, .jsUndefined => true
  | _, _ => false

/-- JavaScript relational `<` on sort keys.  Any comparison involving `NaN`
or `undefined` is `false`; strings compare lexicographically.  (A string
never meets a number here: both operands always come from the same object
property, so the mixed cases are unreachable and set to `false`.) -/
def jsLt : JSVal → JSVal → Bool
  | .str s, .str t => strLt s t
  | .num (some a), .num (some b) => a < b
  | _, _ => false

/-- The body of the comparator in `sortedProjects`:
`if (aValue === bValue) return 0` then `-1` / `1` from `<` / `>`
(`a > b` being `b < a` on same-typed operands). -/
def jsCompare (a b : JSVal) : Int :=
  if jsStrictEq a b then 0
  else if jsLt a b then -1
  else if jsLt b a then 1
  else 0

/-- `UniqueProject` from `types/api.ts`. -/
structure UniqueProject where
  id : String
  name : String
  agency_id : String
  agency_name : String
  author_id : Int
  author_name : String
  created_at : String
  updated_at : String
deriving DecidableEq, Repr

/-- `RidershipJob.request_payload` from `types/api.ts`. -/
structure RequestPayload where
  map_type : String
  project_id : String
  baseline_project_id : String
  map_id : Option String
  service_period_id : Option String
deriving DecidableEq, Repr

/-- `RidershipJob.result` from `types/api.ts`. -/
structure JobResult where
  bytes : Option Int
  run_id : Option String
  status : Option String
  triggered : Option Bool
  results_od : String
  results_stops : String
  results_routes : String
deriving DecidableEq, Repr

/-- `RidershipJob` from `types/api.ts`; `map_id : string | null` becomes
`Option String`. -/
structure RidershipJob where
  id : String
  type : String
  status : String
  user_id : Int
  map_id : Option String
  request_payload : RequestPayload
  result : JobResult
  created_at : String
  updated_at : String
deriving DecidableEq, Repr

/-- JavaScript truthiness of a `string | null` value: `null` and the empty
string are falsy. -/
def truthyStrOpt : Option String → Bool
  | none => false
  | some s => s ≠ ""

/-- `Set.prototype.add` on the insertion-ordered duplicate-free list model:
adding an element already present is a no-op, otherwise it is appended. -/
def jsSetAdd (s : List String) (x : String) : List String :=
  if x ∈ s then s else s ++ [x]

/-- `new Set(array)`: deduplicate keeping the first occurrence of each
element, in insertion order. -/
def jsSetOf (l : List String) : List String := l.foldl jsSetAdd []

/-- The comparator of the default (comparator-less) `Array.prototype.sort`
on an array of strings, as a weak order: `a` may precede `b` iff `b < a`
fails. -/
def defaultStrLe (a b : String) : Bool := !(strLt b a)

/-- The body of the `forEach` in `getUniqueMapIds`:
`if (selectedProjects.has(job.request_payload.project_id) && job.map_id)
mapIds.add(job.map_id)`. -/
def mapIdStep (selectedProjects : List String) (acc : List String)
    (job : RidershipJob) : List String :=
  if job.request_payload.project_id ∈ selectedProjects ∧
      truthyStrOpt job.map_id then
    jsSetAdd acc (job.map_id.getD "")
  else acc

/-- `getUniqueMapIds` from `ProjectsGrid`, with the snapshot present
(`data.projects.jobs = jobs`) and the selection set given as its
insertion-ordered element list.  Returns `[]` when the selection is empty;
otherwise collects `job.map_id` over jobs whose
`request_payload.project_id` is selected and whose `map_id` is truthy,
into a `Set`, then `Array.from(...).sort()`. -/
def getUniqueMapIds (jobs : List RidershipJob) (selectedProjects : List String) :
    List String :=
  if selectedProjects.length = 0 then []
  else (jobs.foldl (mapIdStep selectedProjects) []).mergeSort defaultStrLe

/-- The JavaScript property access `a[sortBy]` on a `UniqueProject` object:
a known property name yields the property's value, anything else yields
`undefined`. -/
def jsProp (p : UniqueProject) (field : String) : JSVal :=
  if field = "id" then .str p.id
  else if field = "name" then .str p.name
  else if field = "agency_id" then .str p.agency_id
  else if field = "agency_name" then .str p.agency_name
  else if field = "author_id" then .num (some p.author_id)
  else if field = "author_name" then .str p.author_name
  else if field = "created_at" then .str p.created_at
  else if field = "updated_at" then .str p.updated_at
  else .jsUndefined

/-- The sort key selected by the `switch (sortBy)` in `sortedProjects`.
`getTime` is the embedding of `s => new Date(s).getTime()` (`none` = `NaN`);
the `default` branch is the raw property access `a[sortBy]`. -/
def sortKey (getTime : String → Option Int) (sortBy : String)
    (p : UniqueProject) : JSVal :=
  if sortBy = "created_at" then .num (getTime p.created_at)
  else if sortBy = "updated_at" then .num (getTime p.updated_at)
  else if sortBy = "author" then .str p.author_name
  else if sortBy = "agency" then .str p.agency_name
  else jsProp p sortBy

/-- The full comparator passed to `.sort` in `sortedProjects`, direction
applied (`sortDirection === 'desc' ? comparison * -1 : comparison`). -/
def projComparator (getTime : String → Option Int) (sortBy sortDirection : String)
    (a b : UniqueProject) : Int :=
  let c := jsCompare (sortKey getTime sortBy a) (sortKey getTime sortBy b)
  if sortDirection = "desc" then c * (-1) else c

/-- `sortedProjects` from `ProjectsGrid`: a stable sort of a copy of the
project list by `projComparator`. -/
def sortedProjects (getTime : String → Option Int) (sortBy sortDirection : String)
    (l : List UniqueProject) : List UniqueProject :=
  l.mergeSort (fun a b => projComparator getTime sortBy sortDirection a b ≤ 0)

/-- One rendered group: `{ key, title, projects }`. -/
structure ProjectGroup where
  key : String
  title : String
  projects : List UniqueProject
deriving DecidableEq, Repr

/-- `groups[groupKey].push(project)`, creating the group on first use:
association-list update preserving first-insertion order of keys. -/
def addToGroups (gs : List (String × List UniqueProject)) (k : String)
    (p : UniqueProject) : List (String × List UniqueProject) :=
  match gs with
  | [] => [(k, [p])]
  | (k', ps) :: rest =>
    if k' = k then (k', ps ++ [p]) :: rest else (k', ps) :: addToGroups rest k p

/-- The group key chosen in `groupedProjects`: `author_name` when grouping
by author, otherwise `agency_name`. -/
def groupKeyOf (groupBy : String) (p : UniqueProject) : String :=
  if groupBy = "author" then p.author_name else p.agency_name

/-- The comparator `([a], [b]) => a.localeCompare(b)` used to order the
groups.  `localeCompare` is embedded as plain lexicographic comparison of
the key strings (its behavior in the default POSIX collation; the keys this
program produces are ordinary names, where locale collation and
lexicographic order agree on equality, which is all the proofs below use
besides sortedness). -/
def localeCmp (a b : String) : Int :=
  if strLt a b then -1 else if strLt b a then 1 else 0

/-- The `sortedProjects.forEach` accumulation of `groupedProjects`: the
insertion-ordered map from group key to that group's member array. -/
def buildGroups (groupBy : String) (sorted : List UniqueProject) :
    List (String × List UniqueProject) :=
  sorted.foldl (fun gs p => addToGroups gs (groupKeyOf groupBy p) p) []

/-- `groupedProjects` from `ProjectsGrid`: for `groupBy === 'none'` a single
group keyed `"all"` with empty title; otherwise partition the sorted list
into the insertion-ordered map `buildGroups`, then sort its entries by
`localeCompare` of the keys and turn each into a `{key, title, projects}`
group. -/
def groupedProjects (groupBy : String) (sorted : List UniqueProject) :
    List ProjectGroup :=
  if groupBy = "none" then [{ key := "all", title := "", projects := sorted }]
  else
    ((buildGroups groupBy sorted).mergeSort
        (fun x y => localeCmp x.1 y.1 ≤ 0)).map
      (fun e => { key := e.1, title := e.1, projects := e.2 })

/-- `URLSearchParams.get`: the first value recorded for the key, or `null`. -/
def paramsGet (params : List (String × String)) (k : String) : Option String :=
  match params with
  | [] => none
  | (k', v) :: rest => if k' = k then some v else paramsGet rest k

/-- `URLSearchParams.delete`: remove every entry for the key. -/
def paramsDelete (params : List (String × String)) (k : String) :
    List (String × String) :=
  params.filter (fun e => e.1 ≠ k)

/-- `URLSearchParams.set`: overwrite the first entry for the key and drop
the other entries for it; append at the end when the key is absent. -/
def paramsSet (params : List (String × String)) (k v : String) :
    List (String × String) :=
  match params with
  | [] => [(k, v)]
  | (k', v') :: rest =>
    if k' = k then (k, v) :: paramsDelete rest k
    else (k', v') :: paramsSet rest k v

/-- The JavaScript idiom `x || d` for `x : string | null`: `null` and the
empty string fall back to the default. -/
def jsOrDefault (x : Option String) (d : String) : String :=
  match x with
  | none => d
  | some s => if s = "" then d else s

/-- `String.prototype.split(',')` on character lists. -/
def splitCommaAux : List Char → List (List Char)
  | [] => [[]]
  | c :: cs =>
    match splitCommaAux cs with
    | [] => [[]]
    | g :: gs => if c = ',' then [] :: g :: gs else (c :: g) :: gs

/-- `String.prototype.split(',')`: the comma-separated pieces of the string
(`"".split(',')` is `[""]`). -/
def splitComma (s : String) : List String :=
  (splitCommaAux s.data).map (fun l => ⟨l⟩)

/-- `Array.prototype.join(',')`. -/
def joinComma : List String → String
  | [] => ""
  | [x] => x
  | x :: y :: xs => x ++ "," ++ joinComma (y :: xs)

/-- The hydrated view state: the four scalar fields as the raw strings the
code stores (the `as`-casts perform no runtime validation), plus the
selection set as an insertion-ordered duplicate-free list. -/
structure ViewState where
  environment : String
  groupBy : String
  sortBy : String
  sortDirection : String
  selectedProjects : List String
deriving DecidableEq, Repr

/-- `getUrlParams` from `ProjectsGrid`: each scalar field is
`params.get(name) || default`; the selection is
`params.get('selected') ? new Set(split(',')) : new Set()`. -/
def getUrlParams (params : List (String × String)) : ViewState where
  environment := jsOrDefault (paramsGet params "env") "local"
  groupBy := jsOrDefault (paramsGet params "groupBy") "none"
  sortBy := jsOrDefault (paramsGet params "sortBy") "updated_at"
  sortDirection := jsOrDefault (paramsGet params "sortDir") "desc"
  selectedProjects :=
    match paramsGet params "selected" with
    | none => []
    | some s => if s = "" then [] else jsSetOf (splitComma s)

/-- A partial view-state update, the argument of `updateUrlParams`
(`undefined` fields are absent). -/
structure ViewStateUpdate where
  environment : Option String := none
  groupBy : Option String := none
  sortBy : Option String := none
  sortDirection : Option String := none
  selectedProjects : Option (List String) := none
deriving Repr

/-- One `if (updates.x !== undefined) params.set(key, updates.x)` step of
`updateUrlParams`. -/
def applyScalarUpdate (key : String) (v : Option String)
    (params : List (String × String)) : List (String × String) :=
  match v with
  | some x => paramsSet params key x
  | none => params

/-- `updateUrlParams` from `ProjectsGrid`: each field present in the update
is written to its query parameter; the selection is written comma-joined
when non-empty and deleted when empty. -/
def updateUrlParams (updates : ViewStateUpdate) (params : List (String × String)) :
    List (String × String) :=
  let params := applyScalarUpdate "env" updates.environment params
  let params := applyScalarUpdate "groupBy" updates.groupBy params
  let params := applyScalarUpdate "sortBy" updates.sortBy params
  let params := applyScalarUpdate "sortDir" updates.sortDirection params
  match updates.selectedProjects with
  | some sel =>
    if sel.length > 0 then paramsSet params "selected" (joinComma sel)
    else paramsDelete params "selected"
  | none => params

/-- The query-parameter names a partial update rewrites: the parameter of
each field present in the update. -/
def touchedKeys (updates : ViewStateUpdate) : List String :=
  (if updates.environment.isSome then ["env"] else []) ++
  (if updates.groupBy.isSome then ["groupBy"] else []) ++
  (if updates.sortBy.isSome then ["sortBy"] else []) ++
  (if updates.sortDirection.isSome then ["sortDir"] else []) ++
  (if updates.selectedProjects.isSome then ["selected"] else [])

/-- Serialization of a full view state: the five per-field synchronization
effects of `ProjectsGrid` run in declaration order, each calling
`updateUrlParams` with its single field. -/
def serializeState (st : ViewState) (params : List (String × String)) :
    List (String × String) :=
  updateUrlParams { selectedProjects := some st.selectedProjects }
    (updateUrlParams { sortDirection := some st.sortDirection }
      (updateUrlParams { sortBy := some st.sortBy }
        (updateUrlParams { groupBy := some st.groupBy }
          (updateUrlParams { environment := some st.environment } params))))

/-- `projects` (the export snapshot) inside `ProjectsData`, from
`types/api.ts`. -/
structure ExportSnapshot where
  exported_at : String
  total_jobs : Int
  total_unique_projects : Int
  jobs : List RidershipJob
  unique_projects : List UniqueProject
deriving DecidableEq, Repr

/-- `ProjectsData` from `types/api.ts`. -/
structure ProjectsData where
  projects : ExportSnapshot
  lastModified : String
  totalCount : Int
  sourceFile : String
  fromCache : Bool
deriving DecidableEq, Repr

/-- `ProjectsResponse = ApiResponse<ProjectsData>` from `types/api.ts`. -/
structure ProjectsResponse where
  success : Bool
  data : Option ProjectsData
  error : Option String
deriving DecidableEq, Repr

/-- A JavaScript value thrown by the HTTP layer: an `Error` carrying a
message, or any non-`Error` value. -/
inductive JSError where
  | error (message : String)
  | other
deriving DecidableEq, Repr

/-- The outcome of the single HTTP request a call to
`apiClient.get('/api/projects')` performs: a resolved response body, or a
rejection with a thrown value. -/
inductive NetOutcome where
  | ok (r : ProjectsResponse)
  | failure (e : JSError)
deriving DecidableEq, Repr

/-- `projectsApi.getProjects` from the API client, as a function of the
request's outcome: a resolution passes the body through; the `catch`
clause converts any rejection into
`{ success: false, error: message-or-fallback }` instead of rethrowing. -/
def getProjects (environment : String) (net : NetOutcome) : ProjectsResponse :=
  match environment, net with
  | _, .ok r => r
  | _, .failure e =>
    { success := false
      data := none
      error := some (match e with
        | .error m => m
        | .other => "Unknown error occurred") }

/-- `getProjects` run against a script of pending network outcomes: the
call performs exactly one request, consuming exactly the head outcome and
leaving the rest of the script untouched (no automatic retry); `none` only
when the script is empty, which a real request never is. -/
def getProjectsRun (environment : String) (script : List NetOutcome) :
    Option (ProjectsResponse × List NetOutcome) :=
  match script with
  | [] => none
  | o :: rest => some (getProjects environment o, rest)

/-- The component state `fetchProjects` touches: the `loading`, `error` and
`data` hooks. -/
structure FetchState where
  loading : Bool
  error : Option String
  data : Option ProjectsData
deriving DecidableEq, Repr

/-- `fetchProjects` from `ProjectsGrid`, given the response `getProjects`
resolved with: `setLoading(true); setError(null)`, then either
`setData(response.data)` when `response.success && response.data`, or
`setError(response.error || 'Failed to fetch projects')`; finally
`setLoading(false)`.  (The `catch` clause is unreachable: `getProjects`
never rejects.) -/
def fetchProjectsResult (prev : FetchState) (response : ProjectsResponse) :
    FetchState :=
  let st : FetchState := { prev with loading := true, error := none }
  let st :=
    if response.success ∧ response.data.isSome then
      { st with data := response.data }
    else
      { st with error := some (jsOrDefault response.error "Failed to fetch projects") }
  { st with loading := false }

/-- A concrete project used in counterexamples, named `"A"`. -/
def sampleA : UniqueProject where
  id := "2"
  name := "A"
  agency_id := "ag1"
  agency_name := "Alpha"
  author_id := 1
  author_name := "Ann"
  created_at := "2025-01-01"
  updated_at := "2025-01-01"

/-- A concrete project used in counterexamples, named `"B"`. -/
def sampleB : UniqueProject where
  id := "1"
  name := "B"
  agency_id := "ag2"
  agency_name := "Zeta"
  author_id := 2
  author_name := "Bob"
  created_at := "2025-01-02"
  updated_at := "2025-01-02"

/-! ## Order lemmas for the embedded JavaScript string comparison -/

theorem lexLt_irrefl : ∀ l : List Char, lexLt l l = false
  | [] => rfl
  | a :: as => by simp [lexLt, lexLt_irrefl as]

theorem lexLt_asymm : ∀ {l₁ l₂ : List Char}, lexLt l₁ l₂ = true → lexLt l₂ l₁ = false
  | [], [], h => by simp [lexLt] at h
  | [], _ :: _, _ => rfl
  | _ :: _, [], h => by simp [lexLt] at h
  | a :: as, b :: bs, h => by
    simp only [lexLt] at h ⊢
    by_cases hab : a.toNat < b.toNat
    · have h1 : ¬ b.toNat < a.toNat := by omega
      simp [hab, h1]
    · by_cases hba : b.toNat < a.toNat
      · simp [hab, hba] at h
      · simp only [hab, hba, if_false] at h ⊢
        simp [lexLt_asymm h]

theorem lexLt_trans : ∀ {l₁ l₂ l₃ : List Char},
    lexLt l₁ l₂ = true → lexLt l₂ l₃ = true → lexLt l₁ l₃ = true
  | [], [], _, h₁, _ => by simp [lexLt] at h₁
  | [], _ :: _, [], _, h₂ => by simp [lexLt] at h₂
  | [], _ :: _, _ :: _, _, _ => rfl
  | _ :: _, [], _, h₁, _ => by simp [lexLt] at h₁
  | _ :: _, _ :: _, [], _, h₂ => by simp [lexLt] at h₂
  | a :: as, b :: bs, c :: cs, h₁, h₂ => by
    simp only [lexLt] at h₁ h₂ ⊢
    by_cases hab : a.toNat < b.toNat <;> by_cases hbc : b.toNat < c.toNat
    · simp [Nat.lt_trans hab hbc]
    · simp only [hbc, if_false] at h₂
      by_cases hcb : c.toNat < b.toNat
      · simp [hcb] at h₂
      · have hbceq : b.toNat = c.toNat := by omega
        simp [hbceq ▸ hab]
    · simp only [hab, if_false] at h₁
      by_cases hba : b.toNat < a.toNat
      · simp [hba] at h₁
      · have habeq : a.toNat = b.toNat := by omega
        simp [habeq ▸ hbc]
    · simp only [hab, hbc, if_false] at h₁ h₂
      by_cases hba : b.toNat < a.toNat
      · simp [hba] at h₁
      · by_cases hcb : c.toNat < b.toNat
        · simp [hcb] at h₂
        · simp only [hba, hcb, if_false] at h₁ h₂
          have hac : ¬ a.toNat < c.toNat := by omega
          have hca : ¬ c.toNat < a.toNat := by omega
          simp [hac, hca, lexLt_trans h₁ h₂]

theorem lexLt_connex : ∀ {l₁ l₂ : List Char},
    lexLt l₁ l₂ = false → lexLt l₂ l₁ = false → l₁ = l₂
  | [], [], _, _ => rfl
  | [], _ :: _, h₁, _ => by simp [lexLt] at h₁
  | _ :: _, [], _, h₂ => by simp [lexLt] at h₂
  | a :: as, b :: bs, h₁, h₂ => by
    simp only [lexLt] at h₁ h₂
    by_cases hab : a.toNat < b.toNat
    · simp [hab] at h₁
    · by_cases hba : b.toNat < a.toNat
      · simp [hab, hba] at h₂
      · simp only [hab, hba, if_false] at h₁ h₂
        have hv : a.toNat = b.toNat := by omega
        have hc : a = b := Char.eq_of_val_eq (UInt32.toNat.inj hv)
        rw [hc, lexLt_connex h₁ h₂]

theorem strLt_irrefl (s : String) : strLt s s = false := lexLt_irrefl s.data

theorem strLt_asymm {s t : String} (h : strLt s t = true) : strLt t s = false :=
  lexLt_asymm h

theorem strLt_trans {s t u : String} (h₁ : strLt s t = true)
    (h₂ : strLt t u = true) : strLt s u = true :=
  lexLt_trans h₁ h₂

theorem strLt_connex {s t : String} (h₁ : strLt s t = false)
    (h₂ : strLt t s = false) : s = t := by
  cases s; cases t
  exact congrArg String.mk (lexLt_connex h₁ h₂)

theorem defaultStrLe_total (a b : String) : defaultStrLe a b || defaultStrLe b a := by
  unfold defaultStrLe
  cases h : strLt b a
  · simp
  · simp [strLt_asymm h]

theorem defaultStrLe_trans (a b c : String) (h₁ : defaultStrLe a b)
    (h₂ : defaultStrLe b c) : defaultStrLe a c := by
  unfold defaultStrLe at h₁ h₂ ⊢
  simp only [Bool.not_eq_true'] at h₁ h₂ ⊢
  by_contra h
  simp only [Bool.not_eq_false] at h
  cases hab : strLt a b
  · have hba : a = b := strLt_connex hab h₁
    rw [hba] at h
    exact absurd h (by simp [h₂])
  · exact absurd (strLt_trans h hab) (by simp [h₂])

theorem defaultStrLe_strict {a b : String} (h : defaultStrLe a b)
    (hne : a ≠ b) : strLt a b := by
  unfold defaultStrLe at h
  simp only [Bool.not_eq_true'] at h
  cases hab : strLt a b
  · exact absurd (strLt_connex hab h) hne
  · rfl

/-! ## C1: getUniqueMapIds -/

theorem mem_jsSetAdd {x y : String} {s : List String} :
    x ∈ jsSetAdd s y ↔ x ∈ s ∨ x = y := by
  unfold jsSetAdd
  by_cases h : y ∈ s
  · simp only [h, if_true]
    constructor
    · exact Or.inl
    · rintro (hx | rfl) <;> [exact hx; exact h]
  · simp [h]

theorem nodup_jsSetAdd {y : String} {s : List String} (h : s.Nodup) :
    (jsSetAdd s y).Nodup := by
  unfold jsSetAdd
  by_cases hy : y ∈ s
  · simpa [hy]
  · simp [hy, List.nodup_append, h]

theorem mem_foldl_mapIdStep {x : String} {sel : List String} :
    ∀ (jobs : List RidershipJob) (acc : List String),
      x ∈ jobs.foldl (mapIdStep sel) acc ↔
        x ∈ acc ∨ ∃ j ∈ jobs, j.request_payload.project_id ∈ sel ∧
          j.map_id = some x ∧ x ≠ ""
  | [], acc => by simp
  | j :: js, acc => by
    rw [List.foldl_cons, mem_foldl_mapIdStep js]
    constructor
    · rintro (hstep | ⟨j', hj', hc⟩)
      · unfold mapIdStep at hstep
        by_cases hcond : j.request_payload.project_id ∈ sel ∧ truthyStrOpt j.map_id
        · rw [if_pos hcond] at hstep
          rcases mem_jsSetAdd.mp hstep with hx | rfl
          · exact Or.inl hx
          · refine Or.inr ⟨j, List.mem_cons_self _ _, hcond.1, ?_, ?_⟩
            · cases hmid : j.map_id with
              | none => rw [hmid] at hcond; simp [truthyStrOpt] at hcond
              | some s => simp [hmid]
            · cases hmid : j.map_id with
              | none => rw [hmid] at hcond; simp [truthyStrOpt] at hcond
              | some s =>
                rw [hmid] at hcond
                simpa [truthyStrOpt, hmid] using hcond.2
        · rw [if_neg hcond] at hstep
          exact Or.inl hstep
      · exact Or.inr ⟨j', List.mem_cons_of_mem _ hj', hc⟩
    · rintro (hx | ⟨j', hj', hsel, hmap, hne⟩)
      · left
        unfold mapIdStep
        by_cases hcond : j.request_payload.project_id ∈ sel ∧ truthyStrOpt j.map_id
        · rw [if_pos hcond]; exact mem_jsSetAdd.mpr (Or.inl hx)
        · rwa [if_neg hcond]
      · rcases List.mem_cons.mp hj' with rfl | hj''
        · left
          have hcond : j'.request_payload.project_id ∈ sel ∧ truthyStrOpt j'.map_id := by
            refine ⟨hsel, ?_⟩
            simp [truthyStrOpt, hmap, hne]
          unfold mapIdStep
          rw [if_pos hcond]
          exact mem_jsSetAdd.mpr (Or.inr (by simp [hmap]))
        · exact Or.inr ⟨j', hj'', hsel, hmap, hne⟩

theorem nodup_foldl_mapIdStep {sel : List String} :
    ∀ (jobs : List RidershipJob) (acc : List String), acc.Nodup →
      (jobs.foldl (mapIdStep sel) acc).Nodup
  | [], _, h => h
  | j :: js, acc, h => by
    rw [List.foldl_cons]
    refine nodup_foldl_mapIdStep js _ ?_
    unfold mapIdStep
    by_cases hcond : j.request_payload.project_id ∈ sel ∧ truthyStrOpt j.map_id
    · rw [if_pos hcond]; exact nodup_jsSetAdd h
    · rwa [if_neg hcond]

/-- C1.  `getUniqueMapIds` returns the empty sequence when the selection is
empty; otherwise it returns exactly the map identifiers of jobs whose
`request_payload.project_id` is selected and whose `map_id` is non-null and
non-empty, duplicate-free and strictly ascending in lexicographic string
order. -/
theorem deriveAssociatedMapIds_correct (jobs : List RidershipJob)
    (sel : List String) :
    (sel = [] → getUniqueMapIds jobs sel = []) ∧
    (sel ≠ [] →
      (getUniqueMapIds jobs sel).Nodup ∧
      (getUniqueMapIds jobs sel).Pairwise (fun a b => strLt a b = true) ∧
      ∀ m, m ∈ getUniqueMapIds jobs sel ↔
        ∃ j ∈ jobs, j.request_payload.project_id ∈ sel ∧
          j.map_id = some m ∧ m ≠ "") := by
  constructor
  · intro h
    simp [getUniqueMapIds, h]
  · intro h
    have hlen : ¬ sel.length = 0 := by simpa [List.length_eq_zero] using h
    have hdef : getUniqueMapIds jobs sel =
        (jobs.foldl (mapIdStep sel) []).mergeSort defaultStrLe := by
      simp [getUniqueMapIds, hlen]
    have hperm : ((jobs.foldl (mapIdStep sel) []).mergeSort defaultStrLe).Perm
        (jobs.foldl (mapIdStep sel) []) := List.mergeSort_perm _ _
    have hnodup0 : (jobs.foldl (mapIdStep sel) []).Nodup :=
      nodup_foldl_mapIdStep jobs [] List.nodup_nil
    have hnodup : (getUniqueMapIds jobs sel).Nodup := by
      rw [hdef]; exact hperm.nodup_iff.mpr hnodup0
    refine ⟨hnodup, ?_, ?_⟩
    · have hsorted : ((jobs.foldl (mapIdStep sel) []).mergeSort
          defaultStrLe).Pairwise (fun a b => defaultStrLe a b = true) :=
        List.sorted_mergeSort defaultStrLe_trans defaultStrLe_total _
      rw [hdef]
      have hne : ((jobs.foldl (mapIdStep sel) []).mergeSort
          defaultStrLe).Pairwise (fun a b => a ≠ b) := hdef ▸ hnodup
      exact (hsorted.and hne).imp (fun h => defaultStrLe_strict h.1 h.2)
    · intro m
      rw [hdef, List.mem_mergeSort, mem_foldl_mapIdStep]
      simp

/-- Witness for C1 at a concrete input. -/
theorem deriveAssociatedMapIds_correct_witness :
    (["p1"] ≠ ([] : List String)) ∧
    ((getUniqueMapIds [] ["p1"]).Nodup ∧
      (getUniqueMapIds [] ["p1"]).Pairwise (fun a b => strLt a b = true) ∧
      ∀ m, m ∈ getUniqueMapIds [] ["p1"] ↔
        ∃ j ∈ ([] : List RidershipJob),
          j.request_payload.project_id ∈ ["p1"] ∧ j.map_id = some m ∧ m ≠ "") :=
  ⟨by decide, (deriveAssociatedMapIds_correct [] ["p1"]).2 (by decide)⟩

/-! ## Comparator algebra for sortedProjects (C2, C6) -/

theorem jsStrictEq_symm (a b : JSVal) : jsStrictEq a b = jsStrictEq b a := by
  cases a <;> cases b <;> simp [jsStrictEq] <;>
    (rename_i n m; cases n <;> cases m <;> simp [eq_comm])

theorem jsCompare_neg (a b : JSVal) : jsCompare a b = - jsCompare b a := by
  unfold jsCompare
  rw [jsStrictEq_symm b a]
  by_cases he : jsStrictEq a b = true
  · simp [he]
  · have he' : jsStrictEq a b = false := by simpa using he
    rw [he']
    simp only [Bool.false_eq_true, if_false]
    have hasymm : ∀ u v : JSVal, jsLt u v = true → jsLt v u = false := by
      intro u v huv
      cases u <;> cases v <;> simp [jsLt] at huv ⊢
      · exact strLt_asymm huv
      · rename_i n m
        cases n <;> cases m <;> simp [jsLt] at huv ⊢
        omega
    by_cases hab : jsLt a b = true
    · simp [hab, hasymm a b hab]
    · have hab' : jsLt a b = false := by simpa using hab
      rw [hab']
      by_cases hba : jsLt b a = true
      · simp [hba]
      · have hba' : jsLt b a = false := by simpa using hba
        simp [hba', hab']

theorem jsCompare_str_le {s t : String} :
    jsCompare (.str s) (.str t) ≤ 0 ↔ defaultStrLe s t = true := by
  unfold jsCompare defaultStrLe
  by_cases he : s = t
  · subst he
    simp [jsStrictEq, strLt_irrefl]
  · simp only [jsStrictEq, jsLt, decide_eq_true_eq, he, if_false]
    by_cases hst : strLt s t = true
    · simp [hst, strLt_asymm hst]
    · have hst' : strLt s t = false := by simpa using hst
      by_cases hts : strLt t s = true
      · simp [hst', hts]
      · have hts' : strLt t s = false := by simpa using hts
        exact absurd (strLt_connex hst' hts') he

theorem jsCompare_num_le {i j : Int} :
    jsCompare (.num (some i)) (.num (some j)) ≤ 0 ↔ i ≤ j := by
  unfold jsCompare
  by_cases he : i = j
  · subst he; simp [jsStrictEq]
  · by_cases hij : i < j
    · simp only [jsStrictEq, jsLt, decide_eq_true_eq, he, hij, if_false, if_true]
      omega
    · by_cases hji : j < i
      · simp only [jsStrictEq, jsLt, decide_eq_true_eq, he, hij, hji,
          if_false, if_true]
        omega
      · exact absurd (by omega : i = j) he

/-- The key kind produced by a recognized sort field: all-string, or (when
no date parses to `NaN`) all-numeric. -/
theorem sortKey_kind (getTime : String → Option Int)
    (hg : ∀ s, getTime s ≠ none) (sortBy : String)
    (hsb : sortBy = "name" ∨ sortBy = "agency" ∨ sortBy = "author" ∨
      sortBy = "created_at" ∨ sortBy = "updated_at") :
    (∀ p, ∃ s, sortKey getTime sortBy p = .str s) ∨
    (∀ p, ∃ i, sortKey getTime sortBy p = .num (some i)) := by
  rcases hsb with rfl | rfl | rfl | rfl | rfl
  · exact Or.inl fun p => ⟨p.name, by simp [sortKey, jsProp]⟩
  · exact Or.inl fun p => ⟨p.agency_name, by simp [sortKey]⟩
  · exact Or.inl fun p => ⟨p.author_name, by simp [sortKey]⟩
  · refine Or.inr fun p => ?_
    rcases Option.ne_none_iff_exists.mp (hg p.created_at) with ⟨i, hi⟩
    exact ⟨i, by simp [sortKey, ← hi]⟩
  · refine Or.inr fun p => ?_
    rcases Option.ne_none_iff_exists.mp (hg p.updated_at) with ⟨i, hi⟩
    exact ⟨i, by simp [sortKey, ← hi]⟩

theorem jsCompare_trans_of_kind {α : Type} (key : α → JSVal)
    (hkind : (∀ p, ∃ s, key p = .str s) ∨ (∀ p, ∃ i, key p = .num (some i)))
    (a b c : α) (h₁ : jsCompare (key a) (key b) ≤ 0)
    (h₂ : jsCompare (key b) (key c) ≤ 0) : jsCompare (key a) (key c) ≤ 0 := by
  rcases hkind with hstr | hnum
  · obtain ⟨sa, ha⟩ := hstr a
    obtain ⟨sb, hb⟩ := hstr b
    obtain ⟨sc, hc⟩ := hstr c
    rw [ha, hb] at h₁
    rw [hb, hc] at h₂
    rw [ha, hc]
    exact jsCompare_str_le.mpr
      (defaultStrLe_trans _ _ _ (jsCompare_str_le.mp h₁) (jsCompare_str_le.mp h₂))
  · obtain ⟨ia, ha⟩ := hnum a
    obtain ⟨ib, hb⟩ := hnum b
    obtain ⟨ic, hc⟩ := hnum c
    rw [ha, hb] at h₁
    rw [hb, hc] at h₂
    rw [ha, hc]
    exact jsCompare_num_le.mpr
      (le_trans (jsCompare_num_le.mp h₁) (jsCompare_num_le.mp h₂))

theorem jsCompare_le_total (a b : JSVal) :
    jsCompare a b ≤ 0 ∨ jsCompare b a ≤ 0 := by
  rw [jsCompare_neg a b]
  omega

/-- The per-direction weak order `projComparator ... ≤ 0` in terms of the
undirected comparison. -/
theorem projComparator_le_iff (getTime : String → Option Int)
    (sortBy dir : String) (a b : UniqueProject) :
    (projComparator getTime sortBy dir a b ≤ 0 ↔
      (if dir = "desc" then
        jsCompare (sortKey getTime sortBy b) (sortKey getTime sortBy a)
      else jsCompare (sortKey getTime sortBy a) (sortKey getTime sortBy b)) ≤ 0) := by
  unfold projComparator
  by_cases hd : dir = "desc"
  · simp only [hd, if_true]
    rw [jsCompare_neg (sortKey getTime sortBy b) (sortKey getTime sortBy a)]
    omega
  · simp [hd]

/-- A sorted permutation is unique when the order is antisymmetric on the
list's members. -/
theorem eq_of_perm_of_pairwise {α : Type} (le : α → α → Bool) :
    ∀ {l₁ l₂ : List α}, List.Perm l₁ l₂ →
      l₁.Pairwise (fun a b => le a b = true) →
      l₂.Pairwise (fun a b => le a b = true) →
      (∀ a ∈ l₁, ∀ b ∈ l₁, le a b = true → le b a = true → a = b) →
      l₁ = l₂
  | [], l₂, hp, _, _, _ => hp.nil_eq
  | a :: t₁, [], hp, _, _, _ => by cases hp.symm.nil_eq
  | a :: t₁, b :: t₂, hp, h₁, h₂, anti => by
    by_cases hab : a = b
    · subst hab
      have ht : List.Perm t₁ t₂ := hp.cons_inv
      have : t₁ = t₂ :=
        eq_of_perm_of_pairwise le ht h₁.tail h₂.tail
          (fun x hx y hy => anti x (List.mem_cons_of_mem _ hx) y
            (List.mem_cons_of_mem _ hy))
      rw [this]
    · exfalso
      have ha2 : a ∈ b :: t₂ := hp.mem_iff.mp (List.mem_cons_self _ _)
      have hat2 : a ∈ t₂ := by
        rcases List.mem_cons.mp ha2 with h | h
        · exact absurd h hab
        · exact h
      have hba : le b a = true := List.rel_of_pairwise_cons h₂ hat2
      have hb1 : b ∈ a :: t₁ := hp.mem_iff.mpr (List.mem_cons_self _ _)
      have hbt1 : b ∈ t₁ := by
        rcases List.mem_cons.mp hb1 with h | h
        · exact absurd h.symm hab
        · exact h
      have habl : le a b = true := List.rel_of_pairwise_cons h₁ hbt1
      exact hab (anti a (List.mem_cons_self _ _) b (List.mem_cons_of_mem _ hbt1)
        habl hba)

theorem pairwise_of_rel_true {α : Type} {R : α → α → Prop}
    (h : ∀ a b, R a b) : ∀ l : List α, l.Pairwise R
  | [] => .nil
  | a :: t => .cons (fun b _ => h a b) (pairwise_of_rel_true h t)

/-! ## C2: unrecognized sort field -/

/-- C2 counterexample.  Sorting by the unrecognized field `"bogus"` leaves
the list in input order, which differs from sorting by `name`: the fallback
is not name-equivalent. -/
theorem sortProjects_unrecognized_not_name_counterexample :
    sortedProjects (fun _ => some 0) "bogus" "asc" [sampleB, sampleA] ≠
      sortedProjects (fun _ => some 0) "name" "asc" [sampleB, sampleA] := by
  have h1 : sortedProjects (fun _ => some 0) "bogus" "asc" [sampleB, sampleA] =
      [sampleB, sampleA] := by
    simp [sortedProjects, List.mergeSort, projComparator, sortKey, jsProp,
      jsCompare, jsStrictEq, jsLt, strLt, lexLt, List.merge, sampleA, sampleB]
  have h2 : sortedProjects (fun _ => some 0) "name" "asc" [sampleB, sampleA] =
      [sampleA, sampleB] := by
    simp [sortedProjects, List.mergeSort, projComparator, sortKey, jsProp,
      jsCompare, jsStrictEq, jsLt, strLt, lexLt, List.merge, sampleA, sampleB]
  rw [h1, h2]
  decide

/-- C2 (amended).  Sorting with a sort field that is neither recognized by
the `switch` nor the name of a `UniqueProject` property does not throw
(the function is total) and returns the project list unchanged: every
comparison is `undefined === undefined`, hence `0`. -/
theorem sortProjects_unrecognized_field (getTime : String → Option Int)
    (sortBy : String)
    (h : sortBy ∉ (["name", "agency", "author", "created_at", "updated_at",
      "id", "agency_id", "agency_name", "author_id", "author_name"] :
        List String))
    (dir : String) (l : List UniqueProject) :
    sortedProjects getTime sortBy dir l = l := by
  simp only [List.mem_cons, List.not_mem_nil, or_false, not_or] at h
  obtain ⟨h1, h2, h3, h4, h5, h6, h7, h8, h9, h10⟩ := h
  have hkey : ∀ p, sortKey getTime sortBy p = .jsUndefined := by
    intro p
    simp [sortKey, jsProp, h1, h2, h3, h4, h5, h6, h7, h8, h9, h10]
  have hcmp : ∀ a b : UniqueProject,
      projComparator getTime sortBy dir a b = 0 := by
    intro a b
    simp [projComparator, hkey, jsCompare, jsStrictEq]
  unfold sortedProjects
  apply List.mergeSort_of_sorted
  apply pairwise_of_rel_true
  intro a b
  simp [hcmp]

/-- Witness for C2 at a concrete input. -/
theorem sortProjects_unrecognized_field_witness :
    sortedProjects (fun _ => some 0) "bogus" "asc" [sampleB, sampleA] =
      [sampleB, sampleA] :=
  sortProjects_unrecognized_field (fun _ => some 0) "bogus" (by decide) "asc"
    [sampleB, sampleA]

/-! ## C6: direction reversal and stability -/

/-- C6.  For a recognized sort field (and with every date parsing to a
number rather than `NaN`): if no two list members compare equal, the
descending sort is the element-for-element reversal of the ascending sort;
and for either direction, any run of pairwise-tied members keeps its input
relative order (it stays a sublist of the output — stability). -/
theorem sortProjects_direction_and_stability (getTime : String → Option Int)
    (hg : ∀ s, getTime s ≠ none) (sortBy : String)
    (hsb : sortBy = "name" ∨ sortBy = "agency" ∨ sortBy = "author" ∨
      sortBy = "created_at" ∨ sortBy = "updated_at")
    (l : List UniqueProject) :
    (l.Pairwise (fun a b =>
        jsCompare (sortKey getTime sortBy a) (sortKey getTime sortBy b) ≠ 0) →
      sortedProjects getTime sortBy "desc" l =
        (sortedProjects getTime sortBy "asc" l).reverse) ∧
    (∀ dir (c : List UniqueProject), c.Sublist l →
      c.Pairwise (fun a b =>
        jsCompare (sortKey getTime sortBy a) (sortKey getTime sortBy b) = 0) →
      c.Sublist (sortedProjects getTime sortBy dir l)) := by
  have hkind := sortKey_kind getTime hg sortBy hsb
  have htrans : ∀ dir (a b c : UniqueProject),
      (decide (projComparator getTime sortBy dir a b ≤ 0)) = true →
      (decide (projComparator getTime sortBy dir b c ≤ 0)) = true →
      (decide (projComparator getTime sortBy dir a c ≤ 0)) = true := by
    intro dir a b c h₁ h₂
    rw [decide_eq_true_eq] at h₁ h₂ ⊢
    rw [projComparator_le_iff] at h₁ h₂ ⊢
    by_cases hd : dir = "desc"
    · simp only [hd, if_true] at h₁ h₂ ⊢
      exact jsCompare_trans_of_kind _ hkind c b a h₂ h₁
    · simp only [hd, if_false] at h₁ h₂ ⊢
      exact jsCompare_trans_of_kind _ hkind a b c h₁ h₂
  have htotal : ∀ dir (a b : UniqueProject),
      ((decide (projComparator getTime sortBy dir a b ≤ 0)) ||
        (decide (projComparator getTime sortBy dir b a ≤ 0))) = true := by
    intro dir a b
    rw [Bool.or_eq_true, decide_eq_true_eq, decide_eq_true_eq,
      projComparator_le_iff, projComparator_le_iff]
    by_cases hd : dir = "desc" <;>
      simp only [hd, if_true, if_false] <;>
      exact jsCompare_le_total _ _
  constructor
  · intro hne
    have hnm : ∀ a ∈ l, ∀ b ∈ l, a ≠ b →
        jsCompare (sortKey getTime sortBy a) (sortKey getTime sortBy b) ≠ 0 := by
      have hsymm : Symmetric (fun a b : UniqueProject =>
          jsCompare (sortKey getTime sortBy a) (sortKey getTime sortBy b) ≠ 0) := by
        intro a b h
        rw [jsCompare_neg]
        omega
      intro a ha b hb hab
      exact hne.forall hsymm ha hb hab
    unfold sortedProjects
    apply eq_of_perm_of_pairwise
      (fun a b => decide (projComparator getTime sortBy "desc" a b ≤ 0))
    · exact (List.mergeSort_perm l _).trans
        ((List.mergeSort_perm l _).symm.trans
          (List.reverse_perm _).symm)
    · exact List.sorted_mergeSort (htrans "desc") (htotal "desc") l
    · rw [List.pairwise_reverse]
      have hasc := @List.sorted_mergeSort UniqueProject
        (fun a b => decide (projComparator getTime sortBy "asc" a b ≤ 0))
        (htrans "asc") (htotal "asc") l
      refine hasc.imp ?_
      intro a b h
      rw [decide_eq_true_eq, projComparator_le_iff] at h ⊢
      rw [if_neg (by decide : ¬("asc" : String) = "desc")] at h
      rw [if_pos (rfl : ("desc" : String) = "desc")]
      exact h
    · intro a ha b hb h₁ h₂
      rw [decide_eq_true_eq, projComparator_le_iff,
        if_pos (rfl : ("desc" : String) = "desc")] at h₁ h₂
      by_contra hab
      have hal : a ∈ l := List.mem_mergeSort.mp ha
      have hbl : b ∈ l := List.mem_mergeSort.mp hb
      have h0 : jsCompare (sortKey getTime sortBy a) (sortKey getTime sortBy b) ≠ 0 :=
        hnm a hal b hbl hab
      rw [jsCompare_neg] at h₂ h0
      omega
  · intro dir c hsub hties
    unfold sortedProjects
    apply List.sublist_mergeSort (htrans dir) (htotal dir) _ hsub
    refine hties.imp ?_
    intro a b h
    rw [decide_eq_true_eq]
    simp [projComparator, h]

/-- Witness for C6 at a concrete input. -/
theorem sortProjects_direction_and_stability_witness :
    (([] : List UniqueProject).Pairwise (fun a b =>
        jsCompare (sortKey (fun _ => some 0) "name" a)
          (sortKey (fun _ => some 0) "name" b) ≠ 0) →
      sortedProjects (fun _ => some 0) "name" "desc" [] =
        (sortedProjects (fun _ => some 0) "name" "asc" []).reverse) ∧
    (∀ dir (c : List UniqueProject), c.Sublist [] →
      c.Pairwise (fun a b =>
        jsCompare (sortKey (fun _ => some 0) "name" a)
          (sortKey (fun _ => some 0) "name" b) = 0) →
      c.Sublist (sortedProjects (fun _ => some 0) "name" dir [])) :=
  sortProjects_direction_and_stability (fun _ => some 0) (fun s => by simp)
    "name" (Or.inl rfl) []

/-! ## URLSearchParams lemmas -/

theorem paramsGet_paramsSet_self (ps : List (String × String)) (k v : String) :
    paramsGet (paramsSet ps k v) k = some v := by
  induction ps with
  | nil => simp [paramsSet, paramsGet]
  | cons e rest ih =>
    obtain ⟨k', v'⟩ := e
    by_cases h : k' = k
    · simp [paramsSet, paramsGet, h]
    · simp [paramsSet, paramsGet, h, ih]

theorem paramsDelete_nil (k : String) : paramsDelete [] k = [] := rfl

theorem paramsDelete_cons (e : String × String) (ps : List (String × String))
    (k : String) :
    paramsDelete (e :: ps) k =
      if e.1 = k then paramsDelete ps k else e :: paramsDelete ps k := by
  by_cases h : e.1 = k <;> simp [paramsDelete, h]

theorem paramsGet_paramsDelete_self (ps : List (String × String)) (k : String) :
    paramsGet (paramsDelete ps k) k = none := by
  induction ps with
  | nil => simp [paramsDelete_nil, paramsGet]
  | cons e rest ih =>
    obtain ⟨ke, ve⟩ := e
    by_cases h : ke = k
    · simp [paramsDelete_cons, h, ih]
    · simp [paramsDelete_cons, paramsGet, h, ih]

theorem paramsGet_paramsDelete_other (ps : List (String × String)) {k' k : String}
    (h : k' ≠ k) : paramsGet (paramsDelete ps k') k = paramsGet ps k := by
  induction ps with
  | nil => simp [paramsDelete_nil, paramsGet]
  | cons e rest ih =>
    obtain ⟨ke, ve⟩ := e
    by_cases he : ke = k'
    · have hkk : ¬ ke = k := he ▸ h
      simp [paramsDelete_cons, he, paramsGet, hkk, ih, h]
    · by_cases hek : ke = k
      · simp [paramsDelete_cons, he, paramsGet, hek, Ne.symm h]
      · simp [paramsDelete_cons, he, paramsGet, hek, ih]

theorem paramsGet_paramsSet_other (ps : List (String × String)) {k' k : String}
    (h : k' ≠ k) (v : String) :
    paramsGet (paramsSet ps k' v) k = paramsGet ps k := by
  induction ps with
  | nil => simp [paramsSet, paramsGet, h]
  | cons e rest ih =>
    obtain ⟨ke, ve⟩ := e
    by_cases he : ke = k'
    · subst he
      have hkk : ¬ ke = k := h
      simp only [paramsSet, if_pos rfl, paramsGet, if_neg hkk]
      exact paramsGet_paramsDelete_other rest h
    · by_cases hek : ke = k
      · simp [paramsSet, he, paramsGet, hek, Ne.symm h]
      · simp [paramsSet, he, paramsGet, hek, ih]

theorem filter_paramsDelete_self (ps : List (String × String)) (k : String) :
    (paramsDelete ps k).filter (fun e => e.1 = k) = [] := by
  induction ps with
  | nil => simp [paramsDelete_nil]
  | cons e rest ih =>
    obtain ⟨ke, ve⟩ := e
    by_cases h : ke = k
    · simpa [paramsDelete_cons, h] using ih
    · simpa [paramsDelete_cons, h, List.filter_cons] using ih

theorem filter_paramsDelete_other (ps : List (String × String)) {k' k : String}
    (h : k' ≠ k) :
    (paramsDelete ps k').filter (fun e => e.1 = k) =
      ps.filter (fun e => e.1 = k) := by
  induction ps with
  | nil => simp [paramsDelete_nil]
  | cons e rest ih =>
    obtain ⟨ke, ve⟩ := e
    by_cases he : ke = k'
    · have hk : ¬ ke = k := he ▸ h
      simp [paramsDelete_cons, he, List.filter_cons, hk, ih, h]
    · by_cases hek : ke = k
      · simp [paramsDelete_cons, he, List.filter_cons, hek, ih, Ne.symm h]
      · simp [paramsDelete_cons, he, List.filter_cons, hek, ih]

theorem filter_paramsSet_other (ps : List (String × String)) {k' k : String}
    (h : k' ≠ k) (v : String) :
    (paramsSet ps k' v).filter (fun e => e.1 = k) =
      ps.filter (fun e => e.1 = k) := by
  induction ps with
  | nil => simp [paramsSet, List.filter_cons, h]
  | cons e rest ih =>
    obtain ⟨ke, ve⟩ := e
    by_cases he : ke = k'
    · have hk : ¬ ke = k := he ▸ h
      simp [paramsSet, he, List.filter_cons, h, hk,
        filter_paramsDelete_other rest h]
    · by_cases hek : ke = k
      · simp [paramsSet, he, List.filter_cons, hek, ih, Ne.symm h]
      · simp [paramsSet, he, List.filter_cons, hek, ih]

/-! ## C3: hydration defaults -/

/-- C3 counterexample.  A present but unparseable value is not replaced by
the documented default: hydrating from `?env=foo` yields environment
`"foo"`, not `"local"` — the `as Environment` cast performs no runtime
validation. -/
theorem hydration_unparseable_counterexample :
    (getUrlParams [("env", "foo")]).environment = "foo" ∧
      (getUrlParams [("env", "foo")]).environment ≠ "local" := by
  constructor <;> decide

/-- C3 (amended).  Each view-state field hydrates to its documented default
(environment=local, groupBy=none, sortBy=updated_at, sortDirection=desc,
selection=empty) when its query parameter is absent or has an empty value;
a present non-empty value is adopted verbatim (no enum validation), and a
non-empty `selected` value is parsed as a comma-separated list and
deduplicated into a set. -/
theorem hydration_defaults (ps : List (String × String)) :
    ((paramsGet ps "env" = none ∨ paramsGet ps "env" = some "") →
      (getUrlParams ps).environment = "local") ∧
    (∀ v, v ≠ "" → paramsGet ps "env" = some v →
      (getUrlParams ps).environment = v) ∧
    ((paramsGet ps "groupBy" = none ∨ paramsGet ps "groupBy" = some "") →
      (getUrlParams ps).groupBy = "none") ∧
    (∀ v, v ≠ "" → paramsGet ps "groupBy" = some v →
      (getUrlParams ps).groupBy = v) ∧
    ((paramsGet ps "sortBy" = none ∨ paramsGet ps "sortBy" = some "") →
      (getUrlParams ps).sortBy = "updated_at") ∧
    (∀ v, v ≠ "" → paramsGet ps "sortBy" = some v →
      (getUrlParams ps).sortBy = v) ∧
    ((paramsGet ps "sortDir" = none ∨ paramsGet ps "sortDir" = some "") →
      (getUrlParams ps).sortDirection = "desc") ∧
    (∀ v, v ≠ "" → paramsGet ps "sortDir" = some v →
      (getUrlParams ps).sortDirection = v) ∧
    ((paramsGet ps "selected" = none ∨ paramsGet ps "selected" = some "") →
      (getUrlParams ps).selectedProjects = []) ∧
    (∀ v, v ≠ "" → paramsGet ps "selected" = some v →
      (getUrlParams ps).selectedProjects = jsSetOf (splitComma v)) := by
  refine ⟨?_, ?_, ?_, ?_, ?_, ?_, ?_, ?_, ?_, ?_⟩
  · rintro (h | h) <;> simp [getUrlParams, jsOrDefault, h]
  · intro v hv h; simp [getUrlParams, jsOrDefault, h, hv]
  · rintro (h | h) <;> simp [getUrlParams, jsOrDefault, h]
  · intro v hv h; simp [getUrlParams, jsOrDefault, h, hv]
  · rintro (h | h) <;> simp [getUrlParams, jsOrDefault, h]
  · intro v hv h; simp [getUrlParams, jsOrDefault, h, hv]
  · rintro (h | h) <;> simp [getUrlParams, jsOrDefault, h]
  · intro v hv h; simp [getUrlParams, jsOrDefault, h, hv]
  · rintro (h | h) <;> simp [getUrlParams, h]
  · intro v hv h; simp [getUrlParams, h, hv]

/-- Witness for C3 at a concrete input. -/
theorem hydration_defaults_witness :
    (getUrlParams [("env", ""), ("selected", "a,b,a")]).environment = "local" ∧
      (getUrlParams [("env", ""), ("selected", "a,b,a")]).selectedProjects =
        jsSetOf (splitComma "a,b,a") :=
  ⟨(hydration_defaults [("env", ""), ("selected", "a,b,a")]).1 (Or.inr rfl),
    (hydration_defaults [("env", ""), ("selected", "a,b,a")]).2.2.2.2.2.2.2.2.2
      "a,b,a" (by decide) rfl⟩

/-! ## split/join and Set lemmas (C4) -/

theorem splitCommaAux_ne_nil : ∀ l : List Char, splitCommaAux l ≠ []
  | [] => by simp [splitCommaAux]
  | c :: cs => by
    simp only [splitCommaAux]
    cases h : splitCommaAux cs with
    | nil => simp
    | cons g gs => by_cases hc : c = ',' <;> simp [hc]

theorem splitCommaAux_no_comma : ∀ {l : List Char}, ',' ∉ l →
    splitCommaAux l = [l]
  | [], _ => rfl
  | c :: cs, h => by
    have hc : c ≠ ',' := fun hc => h (hc ▸ List.mem_cons_self _ _)
    have hcs : ',' ∉ cs := fun hm => h (List.mem_cons_of_mem _ hm)
    simp only [splitCommaAux, splitCommaAux_no_comma hcs, hc, if_false]

theorem splitCommaAux_append : ∀ {xs : List Char}, ',' ∉ xs → ∀ ys,
    splitCommaAux (xs ++ ',' :: ys) = xs :: splitCommaAux ys
  | [], _, ys => by
    simp only [List.nil_append, splitCommaAux]
    cases h : splitCommaAux ys with
    | nil => exact absurd h (splitCommaAux_ne_nil ys)
    | cons g gs => simp
  | c :: cs, h, ys => by
    have hc : c ≠ ',' := fun hc => h (hc ▸ List.mem_cons_self _ _)
    have hcs : ',' ∉ cs := fun hm => h (List.mem_cons_of_mem _ hm)
    have ih := splitCommaAux_append hcs ys
    simp only [List.cons_append, splitCommaAux, List.append_eq, ih, hc,
      if_false]

theorem joinComma_data_cons (x y : String) (xs : List String) :
    (joinComma (x :: y :: xs)).data = x.data ++ ',' :: (joinComma (y :: xs)).data := by
  simp [joinComma, String.data_append]

theorem splitComma_joinComma : ∀ {ids : List String}, ids ≠ [] →
    (∀ s ∈ ids, ',' ∉ s.data) → splitComma (joinComma ids) = ids
  | [], h, _ => absurd rfl h
  | [x], _, _ => by
    have hx : ',' ∉ x.data := by simp_all
    simp [splitComma, joinComma, splitCommaAux_no_comma hx]
  | x :: y :: xs, _, hc => by
    have hx : ',' ∉ x.data := hc x (List.mem_cons_self _ _)
    have hrest : ∀ s ∈ y :: xs, ',' ∉ s.data :=
      fun s hs => hc s (List.mem_cons_of_mem _ hs)
    have ih := @splitComma_joinComma (y :: xs) (by simp) hrest
    simp only [splitComma, joinComma_data_cons, splitCommaAux_append hx,
      List.map_cons] at ih ⊢
    rw [ih]

theorem foldl_jsSetAdd_of_nodup : ∀ (l acc : List String),
    (acc ++ l).Nodup → l.foldl jsSetAdd acc = acc ++ l
  | [], acc, _ => by simp
  | x :: xs, acc, h => by
    have hx : x ∉ acc := by
      intro hmem
      rcases List.nodup_append.mp h with ⟨-, -, hdisj⟩
      exact hdisj hmem (List.mem_cons_self _ _)
    have hstep : jsSetAdd acc x = acc ++ [x] := by simp [jsSetAdd, hx]
    have hnd : ((acc ++ [x]) ++ xs).Nodup := by
      simpa [List.append_assoc] using h
    calc (x :: xs).foldl jsSetAdd acc = xs.foldl jsSetAdd (acc ++ [x]) := by
          rw [List.foldl_cons, hstep]
      _ = (acc ++ [x]) ++ xs := foldl_jsSetAdd_of_nodup xs (acc ++ [x]) hnd
      _ = acc ++ x :: xs := by simp

theorem jsSetOf_of_nodup {l : List String} (h : l.Nodup) : jsSetOf l = l :=
  foldl_jsSetAdd_of_nodup l [] (by simpa using h)

theorem joinComma_ne_empty {x : String} (rest : List String) (hx : x ≠ "") :
    joinComma (x :: rest) ≠ "" := by
  cases rest with
  | nil => simpa [joinComma] using hx
  | cons y xs =>
    intro h
    have hd := congrArg String.data h
    rw [joinComma_data_cons] at hd
    simp at hd

/-! ## C4: view-state round-trip -/

/-- C4 counterexample.  A selection identifier containing a comma does not
round-trip: serializing the state whose selection is `{"a,b"}` and
hydrating yields the selection `{"a","b"}`, not even set-equal to the
original. -/
theorem viewState_roundtrip_counterexample :
    getUrlParams (serializeState
        ⟨"local", "none", "updated_at", "desc", ["a,b"]⟩ []) ≠
      ⟨"local", "none", "updated_at", "desc", ["a,b"]⟩ ∧
    "a,b" ∉ (getUrlParams (serializeState
        ⟨"local", "none", "updated_at", "desc", ["a,b"]⟩ [])).selectedProjects := by
  constructor <;> decide

/-- C4 (amended).  For every starting query string and every typed view
state whose selected identifiers are non-empty and comma-free, hydrating
from the query string produced by the five serialization effects
reproduces the state exactly — the four scalar fields and the selection
list itself (hence in particular the selection as a set). -/
theorem viewState_roundtrip (ps : List (String × String)) (st : ViewState)
    (henv : st.environment = "local" ∨ st.environment = "production")
    (hgb : st.groupBy = "none" ∨ st.groupBy = "author" ∨ st.groupBy = "agency")
    (hsb : st.sortBy = "name" ∨ st.sortBy = "agency" ∨ st.sortBy = "author" ∨
      st.sortBy = "created_at" ∨ st.sortBy = "updated_at")
    (hsd : st.sortDirection = "asc" ∨ st.sortDirection = "desc")
    (hnd : st.selectedProjects.Nodup)
    (hids : ∀ s ∈ st.selectedProjects, s ≠ "" ∧ ',' ∉ s.data) :
    getUrlParams (serializeState st ps) = st := by
  obtain ⟨e, g, sb, sd, sel⟩ := st
  simp only at henv hgb hsb hsd hnd hids
  have hene : e ≠ "" := by rcases henv with h | h <;> subst h <;> decide
  have hgne : g ≠ "" := by rcases hgb with h | h | h <;> subst h <;> decide
  have hsne : sb ≠ "" := by
    rcases hsb with h | h | h | h | h <;> subst h <;> decide
  have hdne : sd ≠ "" := by rcases hsd with h | h <;> subst h <;> decide
  have hser : serializeState ⟨e, g, sb, sd, sel⟩ ps =
      (if sel.length > 0 then
        paramsSet (paramsSet (paramsSet (paramsSet (paramsSet ps "env" e)
          "groupBy" g) "sortBy" sb) "sortDir" sd) "selected" (joinComma sel)
      else
        paramsDelete (paramsSet (paramsSet (paramsSet (paramsSet ps "env" e)
          "groupBy" g) "sortBy" sb) "sortDir" sd) "selected") := rfl
  by_cases hsel : sel.length > 0
  · rw [hser, if_pos hsel]
    obtain ⟨x, rest, rfl⟩ : ∃ x rest, sel = x :: rest := by
      cases sel with
      | nil => simp at hsel
      | cons x rest => exact ⟨x, rest, rfl⟩
    have hjne : joinComma (x :: rest) ≠ "" :=
      joinComma_ne_empty rest (hids x (List.mem_cons_self _ _)).1
    have hGe : paramsGet (paramsSet (paramsSet (paramsSet (paramsSet
        (paramsSet ps "env" e) "groupBy" g) "sortBy" sb) "sortDir" sd)
        "selected" (joinComma (x :: rest))) "env" = some e := by
      rw [paramsGet_paramsSet_other _ (by decide),
        paramsGet_paramsSet_other _ (by decide),
        paramsGet_paramsSet_other _ (by decide),
        paramsGet_paramsSet_other _ (by decide),
        paramsGet_paramsSet_self]
    have hGg : paramsGet (paramsSet (paramsSet (paramsSet (paramsSet
        (paramsSet ps "env" e) "groupBy" g) "sortBy" sb) "sortDir" sd)
        "selected" (joinComma (x :: rest))) "groupBy" = some g := by
      rw [paramsGet_paramsSet_other _ (by decide),
        paramsGet_paramsSet_other _ (by decide),
        paramsGet_paramsSet_other _ (by decide),
        paramsGet_paramsSet_self]
    have hGs : paramsGet (paramsSet (paramsSet (paramsSet (paramsSet
        (paramsSet ps "env" e) "groupBy" g) "sortBy" sb) "sortDir" sd)
        "selected" (joinComma (x :: rest))) "sortBy" = some sb := by
      rw [paramsGet_paramsSet_other _ (by decide),
        paramsGet_paramsSet_other _ (by decide),
        paramsGet_paramsSet_self]
    have hGd : paramsGet (paramsSet (paramsSet (paramsSet (paramsSet
        (paramsSet ps "env" e) "groupBy" g) "sortBy" sb) "sortDir" sd)
        "selected" (joinComma (x :: rest))) "sortDir" = some sd := by
      rw [paramsGet_paramsSet_other _ (by decide), paramsGet_paramsSet_self]
    have hGsel : paramsGet (paramsSet (paramsSet (paramsSet (paramsSet
        (paramsSet ps "env" e) "groupBy" g) "sortBy" sb) "sortDir" sd)
        "selected" (joinComma (x :: rest))) "selected" =
          some (joinComma (x :: rest)) := paramsGet_paramsSet_self _ _ _
    simp only [getUrlParams, hGe, hGg, hGs, hGd, hGsel, ViewState.mk.injEq]
    refine ⟨by simp [jsOrDefault, hene], by simp [jsOrDefault, hgne],
      by simp [jsOrDefault, hsne], by simp [jsOrDefault, hdne], ?_⟩
    rw [if_neg hjne,
      splitComma_joinComma (by simp) (fun s hs => (hids s hs).2),
      jsSetOf_of_nodup hnd]
  · rw [hser, if_neg hsel]
    have hnil : sel = [] := by
      cases sel with
      | nil => rfl
      | cons x rest => simp at hsel
    subst hnil
    have hGe : paramsGet (paramsDelete (paramsSet (paramsSet (paramsSet
        (paramsSet ps "env" e) "groupBy" g) "sortBy" sb) "sortDir" sd)
        "selected") "env" = some e := by
      rw [paramsGet_paramsDelete_other _ (by decide),
        paramsGet_paramsSet_other _ (by decide),
        paramsGet_paramsSet_other _ (by decide),
        paramsGet_paramsSet_other _ (by decide),
        paramsGet_paramsSet_self]
    have hGg : paramsGet (paramsDelete (paramsSet (paramsSet (paramsSet
        (paramsSet ps "env" e) "groupBy" g) "sortBy" sb) "sortDir" sd)
        "selected") "groupBy" = some g := by
      rw [paramsGet_paramsDelete_other _ (by decide),
        paramsGet_paramsSet_other _ (by decide),
        paramsGet_paramsSet_other _ (by decide),
        paramsGet_paramsSet_self]
    have hGs : paramsGet (paramsDelete (paramsSet (paramsSet (paramsSet
        (paramsSet ps "env" e) "groupBy" g) "sortBy" sb) "sortDir" sd)
        "selected") "sortBy" = some sb := by
      rw [paramsGet_paramsDelete_other _ (by decide),
        paramsGet_paramsSet_other _ (by decide),
        paramsGet_paramsSet_self]
    have hGd : paramsGet (paramsDelete (paramsSet (paramsSet (paramsSet
        (paramsSet ps "env" e) "groupBy" g) "sortBy" sb) "sortDir" sd)
        "selected") "sortDir" = some sd := by
      rw [paramsGet_paramsDelete_other _ (by decide), paramsGet_paramsSet_self]
    have hGsel : paramsGet (paramsDelete (paramsSet (paramsSet (paramsSet
        (paramsSet ps "env" e) "groupBy" g) "sortBy" sb) "sortDir" sd)
        "selected") "selected" = none := paramsGet_paramsDelete_self _ _
    simp only [getUrlParams, hGe, hGg, hGs, hGd, hGsel, ViewState.mk.injEq]
    exact ⟨by simp [jsOrDefault, hene], by simp [jsOrDefault, hgne],
      by simp [jsOrDefault, hsne], by simp [jsOrDefault, hdne], trivial⟩

/-- Witness for C4 at a concrete input. -/
theorem viewState_roundtrip_witness :
    getUrlParams (serializeState
        ⟨"production", "author", "name", "asc", ["p1", "p2"]⟩ [("foo", "bar")]) =
      ⟨"production", "author", "name", "asc", ["p1", "p2"]⟩ :=
  viewState_roundtrip [("foo", "bar")]
    ⟨"production", "author", "name", "asc", ["p1", "p2"]⟩
    (Or.inr rfl) (Or.inr (Or.inl rfl)) (Or.inl rfl) (Or.inl rfl)
    (by decide) (by decide)

/-! ## C7: selected parameter serialization -/

/-- C7.  When a serialization step includes the selection field: an empty
selection removes the `selected` parameter entirely from the query string
(it is never written with an empty value), and a non-empty selection
writes it as the comma-joined identifier list. -/
theorem selectedParam_serialization (u : ViewStateUpdate) (sel : List String)
    (hu : u.selectedProjects = some sel) (ps : List (String × String)) :
    (sel = [] →
      (updateUrlParams u ps).filter (fun e => e.1 = "selected") = [] ∧
      paramsGet (updateUrlParams u ps) "selected" = none) ∧
    (sel ≠ [] →
      paramsGet (updateUrlParams u ps) "selected" = some (joinComma sel)) := by
  have hq : updateUrlParams u ps =
      (if sel.length > 0 then
        paramsSet (applyScalarUpdate "sortDir" u.sortDirection
          (applyScalarUpdate "sortBy" u.sortBy
            (applyScalarUpdate "groupBy" u.groupBy
              (applyScalarUpdate "env" u.environment ps)))) "selected"
          (joinComma sel)
      else
        paramsDelete (applyScalarUpdate "sortDir" u.sortDirection
          (applyScalarUpdate "sortBy" u.sortBy
            (applyScalarUpdate "groupBy" u.groupBy
              (applyScalarUpdate "env" u.environment ps)))) "selected") := by
    simp [updateUrlParams, hu]
  rw [hq]
  constructor
  · rintro rfl
    simp only [List.length_nil, gt_iff_lt, Nat.lt_irrefl, if_false]
    exact ⟨filter_paramsDelete_self _ _, paramsGet_paramsDelete_self _ _⟩
  · intro h
    have hl : sel.length > 0 := List.length_pos.mpr h
    rw [if_pos hl]
    exact paramsGet_paramsSet_self _ _ _

/-- Witness for C7 at a concrete input. -/
theorem selectedParam_serialization_witness :
    ((([] : List String) = [] →
      (updateUrlParams { selectedProjects := some [] }
        [("selected", "old"), ("x", "y")]).filter (fun e => e.1 = "selected") = [] ∧
      paramsGet (updateUrlParams { selectedProjects := some [] }
        [("selected", "old"), ("x", "y")]) "selected" = none) ∧
    (([] : List String) ≠ [] →
      paramsGet (updateUrlParams { selectedProjects := some [] }
        [("selected", "old"), ("x", "y")]) "selected" =
          some (joinComma []))) :=
  selectedParam_serialization { selectedProjects := some [] } [] rfl
    [("selected", "old"), ("x", "y")]

/-! ## C10: frame property of updateUrlParams -/

theorem filter_applyScalarUpdate_other {key k : String} (h : key ≠ k)
    (v : Option String) (ps : List (String × String)) :
    (applyScalarUpdate key v ps).filter (fun e => e.1 = k) =
      ps.filter (fun e => e.1 = k) := by
  cases v with
  | none => rfl
  | some x => exact filter_paramsSet_other ps h x

/-- C10.  A partial update rewrites only the query parameters of the
fields it contains: every parameter whose name is not touched by the
update — including parameters outside the five view-state fields — keeps
exactly its entries. -/
theorem updateUrlParams_frame (u : ViewStateUpdate)
    (ps : List (String × String)) (k : String) (hk : k ∉ touchedKeys u) :
    (updateUrlParams u ps).filter (fun e => e.1 = k) =
      ps.filter (fun e => e.1 = k) := by
  have henv : u.environment.isSome = true → ¬ ("env" : String) = k := by
    intro hx hkk
    exact hk (by simp [touchedKeys, hx, hkk.symm])
  have hgrp : u.groupBy.isSome = true → ¬ ("groupBy" : String) = k := by
    intro hx hkk
    exact hk (by simp [touchedKeys, hx, hkk.symm])
  have hsrt : u.sortBy.isSome = true → ¬ ("sortBy" : String) = k := by
    intro hx hkk
    exact hk (by simp [touchedKeys, hx, hkk.symm])
  have hdir : u.sortDirection.isSome = true → ¬ ("sortDir" : String) = k := by
    intro hx hkk
    exact hk (by simp [touchedKeys, hx, hkk.symm])
  have hsel : u.selectedProjects.isSome = true → ¬ ("selected" : String) = k := by
    intro hx hkk
    exact hk (by simp [touchedKeys, hx, hkk.symm])
  have hstep : ∀ (key : String) (v : Option String)
      (q : List (String × String)), (v.isSome = true → ¬ key = k) →
      (applyScalarUpdate key v q).filter (fun e => e.1 = k) =
        q.filter (fun e => e.1 = k) := by
    intro key v q hv
    cases v with
    | none => rfl
    | some x => exact filter_paramsSet_other q (hv rfl) x
  simp only [updateUrlParams]
  cases hs : u.selectedProjects with
  | none =>
    simp only []
    rw [hstep "sortDir" _ _ hdir, hstep "sortBy" _ _ hsrt,
      hstep "groupBy" _ _ hgrp, hstep "env" _ _ henv]
  | some sel =>
    have hselk : ¬ ("selected" : String) = k := hsel (by simp [hs])
    simp only []
    by_cases hl : sel.length > 0
    · rw [if_pos hl, filter_paramsSet_other _ hselk, hstep "sortDir" _ _ hdir,
        hstep "sortBy" _ _ hsrt, hstep "groupBy" _ _ hgrp, hstep "env" _ _ henv]
    · rw [if_neg hl, filter_paramsDelete_other _ hselk, hstep "sortDir" _ _ hdir,
        hstep "sortBy" _ _ hsrt, hstep "groupBy" _ _ hgrp, hstep "env" _ _ henv]

/-- Witness for C10 at a concrete input. -/
theorem updateUrlParams_frame_witness :
    (updateUrlParams { environment := some "production" }
        [("custom", "1"), ("groupBy", "author")]).filter
      (fun e => e.1 = "custom") =
      [("custom", "1"), ("groupBy", "author")].filter
        (fun e => e.1 = "custom") :=
  updateUrlParams_frame { environment := some "production" }
    [("custom", "1"), ("groupBy", "author")] "custom" (by decide)

/-! ## C5/C9: grouping -/

theorem keys_addToGroups (gs : List (String × List UniqueProject)) (k : String)
    (p : UniqueProject) :
    (addToGroups gs k p).map Prod.fst =
      if k ∈ gs.map Prod.fst then gs.map Prod.fst
      else gs.map Prod.fst ++ [k] := by
  induction gs with
  | nil => simp [addToGroups]
  | cons e rest ih =>
    obtain ⟨k', ps0⟩ := e
    by_cases h : k' = k
    · simp [addToGroups, h]
    · simp only [addToGroups, if_neg h, List.map_cons, ih, List.mem_cons]
      by_cases hm : k ∈ rest.map Prod.fst
      · simp [hm, Ne.symm h]
      · simp [hm, Ne.symm h]

theorem mem_addToGroups {gs : List (String × List UniqueProject)} {k : String}
    {p : UniqueProject} (hnd : (gs.map Prod.fst).Nodup)
    {e : String × List UniqueProject} (he : e ∈ addToGroups gs k p) :
    (e ∈ gs ∧ e.1 ≠ k) ∨ (∃ v, (k, v) ∈ gs ∧ e = (k, v ++ [p])) ∨
      (k ∉ gs.map Prod.fst ∧ e = (k, [p])) := by
  induction gs with
  | nil =>
    simp only [addToGroups, List.mem_singleton] at he
    exact Or.inr (Or.inr ⟨by simp, he⟩)
  | cons hd rest ih =>
    obtain ⟨k', ps0⟩ := hd
    by_cases h : k' = k
    · subst h
      rw [addToGroups, if_pos rfl] at he
      rcases List.mem_cons.mp he with rfl | hrest
      · exact Or.inr (Or.inl ⟨ps0, List.mem_cons_self _ _, rfl⟩)
      · have hnd' : (k' :: rest.map Prod.fst).Nodup := by
          rw [List.map_cons] at hnd; exact hnd
        have hk : k' ∉ rest.map Prod.fst := (List.nodup_cons.mp hnd').1
        have hne : e.1 ≠ k' := by
          intro hq
          exact hk (hq ▸ List.mem_map_of_mem Prod.fst hrest)
        exact Or.inl ⟨List.mem_cons_of_mem _ hrest, hne⟩
    · rw [addToGroups, if_neg h] at he
      rcases List.mem_cons.mp he with rfl | hrest
      · exact Or.inl ⟨List.mem_cons_self _ _, h⟩
      · have hnd' : (k' :: rest.map Prod.fst).Nodup := by
          rw [List.map_cons] at hnd; exact hnd
        have hndr : (rest.map Prod.fst).Nodup := (List.nodup_cons.mp hnd').2
        rcases ih hndr hrest with ⟨hin, hne⟩ | ⟨v, hv, rfl⟩ | ⟨hk, rfl⟩
        · exact Or.inl ⟨List.mem_cons_of_mem _ hin, hne⟩
        · exact Or.inr (Or.inl ⟨v, List.mem_cons_of_mem _ hv, rfl⟩)
        · refine Or.inr (Or.inr ⟨?_, rfl⟩)
          simp only [List.map_cons, List.mem_cons]
          rintro (hq | hq)
          · exact h hq.symm
          · exact hk hq

theorem buildGroups_inv (gb : String) (l : List UniqueProject) :
    ((buildGroups gb l).map Prod.fst).Nodup ∧
    (∀ kk, kk ∈ (buildGroups gb l).map Prod.fst ↔
      kk ∈ l.map (groupKeyOf gb)) ∧
    (∀ e ∈ buildGroups gb l,
      e.2 = l.filter (fun p => groupKeyOf gb p = e.1)) := by
  induction l using List.reverseRecOn with
  | nil => simp [buildGroups]
  | append_singleton l p ih =>
    obtain ⟨hnd, hmem, hval⟩ := ih
    have hstep : buildGroups gb (l ++ [p]) =
        addToGroups (buildGroups gb l) (groupKeyOf gb p) p := by
      simp [buildGroups, List.foldl_append]
    rw [hstep]
    refine ⟨?_, ?_, ?_⟩
    · rw [keys_addToGroups]
      by_cases hk : groupKeyOf gb p ∈ (buildGroups gb l).map Prod.fst
      · simpa [hk] using hnd
      · simp [hk, List.nodup_append, hnd]
    · intro kk
      rw [keys_addToGroups, List.map_append, List.mem_append]
      by_cases hk : groupKeyOf gb p ∈ (buildGroups gb l).map Prod.fst
      · rw [if_pos hk]
        rw [hmem kk]
        constructor
        · exact Or.inl
        · rintro (hq | hq)
          · exact hq
          · simp only [List.map_cons, List.map_nil, List.mem_singleton] at hq
            exact hq ▸ (hmem _).mp hk
      · rw [if_neg hk, List.mem_append]
        simp [hmem kk]
    · intro e he
      rcases mem_addToGroups hnd he with ⟨hin, hne⟩ | ⟨v, hv, rfl⟩ | ⟨hk, rfl⟩
      · rw [hval e hin, List.filter_append]
        have hnil : ([p].filter (fun q => groupKeyOf gb q = e.1)) = [] := by
          simp [Ne.symm hne]
        rw [hnil, List.append_nil]
      · have hv2 := hval (groupKeyOf gb p, v) hv
        simp only at hv2 ⊢
        rw [List.filter_append, ← hv2]
        simp
      · simp only
        rw [List.filter_append]
        have hnil : l.filter (fun q => groupKeyOf gb q = groupKeyOf gb p) = [] := by
          apply List.filter_eq_nil_iff.mpr
          intro a ha
          simp only [decide_eq_true_eq]
          intro hq
          exact hk ((hmem _).mpr (hq ▸ List.mem_map_of_mem _ ha))
        rw [hnil]
        simp

theorem localeCmp_le {a b : String} :
    localeCmp a b ≤ 0 ↔ defaultStrLe a b = true := by
  unfold localeCmp defaultStrLe
  cases hab : strLt a b
  · cases hba : strLt b a
    · simp [hab, hba]
    · simp [hab, hba]
  · simp [hab, strLt_asymm hab]

theorem sum_ite_zero_of_not_mem (k0 : String) (c : Nat) :
    ∀ ks : List String, k0 ∉ ks →
      (ks.map (fun k => if k0 = k then c else 0)).sum = 0
  | [], _ => rfl
  | k :: ks, h => by
    have hk : k0 ≠ k := fun hq => h (hq ▸ List.mem_cons_self _ _)
    have hks : k0 ∉ ks := fun hm => h (List.mem_cons_of_mem _ hm)
    simp [hk, sum_ite_zero_of_not_mem k0 c ks hks]

theorem sum_ite_count (k0 : String) (c : Nat) :
    ∀ ks : List String, ks.Nodup →
      (ks.map (fun k => if k0 = k then c else 0)).sum =
        if k0 ∈ ks then c else 0
  | [], _ => by simp
  | k :: ks, h => by
    obtain ⟨hk, hnd⟩ := List.nodup_cons.mp h
    by_cases hq : k0 = k
    · subst hq
      simp [sum_ite_zero_of_not_mem k0 c ks hk]
    · simp only [List.map_cons, List.sum_cons, if_neg hq, Nat.zero_add,
        sum_ite_count k0 c ks hnd, List.mem_cons]
      by_cases hm : k0 ∈ ks <;> simp [hm, hq]

theorem count_filter_ite (p : UniqueProject) (q : UniqueProject → Bool)
    (l : List UniqueProject) :
    (l.filter q).count p = if q p then l.count p else 0 := by
  by_cases h : q p
  · rw [List.count_filter h, if_pos h]
  · rw [if_neg h, List.count_eq_zero]
    intro hm
    exact h (List.of_mem_filter hm)

theorem flatMap_map_projects (s : List (String × List UniqueProject)) :
    ((s.map (fun e => ({ key := e.1, title := e.1, projects := e.2 } :
      ProjectGroup))).flatMap (fun grp => grp.projects)) =
      s.flatMap (fun e => e.2) := by
  induction s with
  | nil => rfl
  | cons e rest ih => simp [ih]

theorem count_flatMap_snd (p : UniqueProject) :
    ∀ s : List (String × List UniqueProject),
      (s.flatMap (fun e => e.2)).count p = (s.map (fun e => e.2.count p)).sum
  | [] => rfl
  | e :: rest => by
    simp [List.count_append, count_flatMap_snd p rest]

theorem map_fst_ite (s : List (String × List UniqueProject)) (k0 : String)
    (c : Nat) :
    s.map (fun e => if k0 = e.1 then c else 0) =
      (s.map Prod.fst).map (fun k => if k0 = k then c else 0) := by
  induction s with
  | nil => rfl
  | cons e rest ih => simp [ih]

theorem groupedProjects_spec (gb : String) (hgb : ¬ gb = "none")
    (l : List UniqueProject) :
    (∀ grp ∈ groupedProjects gb l, grp.title = grp.key ∧
      grp.projects = l.filter (fun p => groupKeyOf gb p = grp.key)) ∧
    ((groupedProjects gb l).map (fun grp => grp.key)).Pairwise
      (fun a b => strLt a b = true) ∧
    (∀ kk, kk ∈ (groupedProjects gb l).map (fun grp => grp.key) ↔
      kk ∈ l.map (groupKeyOf gb)) ∧
    List.Perm ((groupedProjects gb l).flatMap (fun grp => grp.projects)) l := by
  obtain ⟨hnd, hmem, hval⟩ := buildGroups_inv gb l
  have hdef : groupedProjects gb l =
      ((buildGroups gb l).mergeSort
        (fun x y => decide (localeCmp x.1 y.1 ≤ 0))).map
        (fun e => { key := e.1, title := e.1, projects := e.2 }) := by
    simp [groupedProjects, hgb]
  have hperm : List.Perm ((buildGroups gb l).mergeSort
      (fun x y => decide (localeCmp x.1 y.1 ≤ 0))) (buildGroups gb l) :=
    List.mergeSort_perm _ _
  have htrans : ∀ x y z : String × List UniqueProject,
      decide (localeCmp x.1 y.1 ≤ 0) = true →
      decide (localeCmp y.1 z.1 ≤ 0) = true →
      decide (localeCmp x.1 z.1 ≤ 0) = true := by
    intro x y z h1 h2
    rw [decide_eq_true_eq, localeCmp_le] at h1 h2 ⊢
    exact defaultStrLe_trans _ _ _ h1 h2
  have htotal : ∀ x y : String × List UniqueProject,
      (decide (localeCmp x.1 y.1 ≤ 0) || decide (localeCmp y.1 x.1 ≤ 0)) = true := by
    intro x y
    rw [Bool.or_eq_true, decide_eq_true_eq, decide_eq_true_eq, localeCmp_le,
      localeCmp_le]
    simpa using defaultStrLe_total x.1 y.1
  have hsorted_le : ((buildGroups gb l).mergeSort
      (fun x y => decide (localeCmp x.1 y.1 ≤ 0))).Pairwise
      (fun x y => defaultStrLe x.1 y.1 = true) := by
    refine (List.sorted_mergeSort htrans htotal (buildGroups gb l)).imp ?_
    intro x y h
    rwa [decide_eq_true_eq, localeCmp_le] at h
  have hnds : (((buildGroups gb l).mergeSort
      (fun x y => decide (localeCmp x.1 y.1 ≤ 0))).map Prod.fst).Nodup :=
    (hperm.map Prod.fst).nodup_iff.mpr hnd
  have hneq : ((buildGroups gb l).mergeSort
      (fun x y => decide (localeCmp x.1 y.1 ≤ 0))).Pairwise
      (fun x y => x.1 ≠ y.1) := List.pairwise_map.mp hnds
  have hstrict : ((buildGroups gb l).mergeSort
      (fun x y => decide (localeCmp x.1 y.1 ≤ 0))).Pairwise
      (fun x y => strLt x.1 y.1 = true) :=
    (hsorted_le.and hneq).imp (fun h => defaultStrLe_strict h.1 h.2)
  have hvalS : ∀ e ∈ (buildGroups gb l).mergeSort
      (fun x y => decide (localeCmp x.1 y.1 ≤ 0)),
      e.2 = l.filter (fun p => groupKeyOf gb p = e.1) :=
    fun e he => hval e (hperm.mem_iff.mp he)
  have hmemS : ∀ kk, kk ∈ ((buildGroups gb l).mergeSort
      (fun x y => decide (localeCmp x.1 y.1 ≤ 0))).map Prod.fst ↔
      kk ∈ l.map (groupKeyOf gb) := by
    intro kk
    rw [(hperm.map Prod.fst).mem_iff]
    exact hmem kk
  rw [hdef]
  have hmapkeys : (((buildGroups gb l).mergeSort
      (fun x y => decide (localeCmp x.1 y.1 ≤ 0))).map
      (fun e => ({ key := e.1, title := e.1, projects := e.2 } :
        ProjectGroup))).map (fun grp => grp.key) =
      ((buildGroups gb l).mergeSort
        (fun x y => decide (localeCmp x.1 y.1 ≤ 0))).map Prod.fst := by
    rw [List.map_map]; rfl
  refine ⟨?_, ?_, ?_, ?_⟩
  · intro grp hg
    rcases List.mem_map.mp hg with ⟨e, he, rfl⟩
    exact ⟨rfl, hvalS e he⟩
  · rw [hmapkeys]
    exact List.pairwise_map.mpr hstrict
  · intro kk
    rw [hmapkeys]
    exact hmemS kk
  · rw [List.perm_iff_count]
    intro p
    rw [flatMap_map_projects, count_flatMap_snd]
    have hm2 : ((buildGroups gb l).mergeSort
        (fun x y => decide (localeCmp x.1 y.1 ≤ 0))).map
        (fun e => e.2.count p) =
        ((buildGroups gb l).mergeSort
          (fun x y => decide (localeCmp x.1 y.1 ≤ 0))).map
          (fun e => if groupKeyOf gb p = e.1 then l.count p else 0) := by
      apply List.map_congr_left
      intro e he
      rw [hvalS e he, count_filter_ite]
      by_cases hq : groupKeyOf gb p = e.1 <;> simp [hq]
    rw [hm2, map_fst_ite, sum_ite_count _ _ _ hnds]
    by_cases hin : groupKeyOf gb p ∈ ((buildGroups gb l).mergeSort
        (fun x y => decide (localeCmp x.1 y.1 ≤ 0))).map Prod.fst
    · rw [if_pos hin]
    · rw [if_neg hin]
      have hpl : p ∉ l := by
        intro hp
        exact hin ((hmemS _).mpr (List.mem_map_of_mem _ hp))
      exact (List.count_eq_zero.mpr hpl).symm

/-- C5.  Grouping with `none` yields one group with empty title holding the
whole list in order.  Grouping by `author` or `agency` partitions the list
by exact string equality of the corresponding name: every group's members
are exactly the list's members with that key in their original relative
order (`filter`), group keys are strictly ascending lexicographically,
the group keys are exactly the keys occurring in the list, and the groups'
concatenation is a permutation of the input (each project appears exactly
once). -/
theorem groupProjects_partition_correct (l : List UniqueProject) :
    groupedProjects "none" l = [{ key := "all", title := "", projects := l }] ∧
    (∀ gb, gb = "author" ∨ gb = "agency" →
      (∀ grp ∈ groupedProjects gb l, grp.title = grp.key ∧
        grp.projects = l.filter (fun p => groupKeyOf gb p = grp.key)) ∧
      ((groupedProjects gb l).map (fun grp => grp.key)).Pairwise
        (fun a b => strLt a b = true) ∧
      (∀ kk, kk ∈ (groupedProjects gb l).map (fun grp => grp.key) ↔
        kk ∈ l.map (groupKeyOf gb)) ∧
      List.Perm ((groupedProjects gb l).flatMap (fun grp => grp.projects)) l) := by
  refine ⟨by simp [groupedProjects], ?_⟩
  intro gb hgb
  have hne : ¬ gb = "none" := by rcases hgb with rfl | rfl <;> decide
  exact groupedProjects_spec gb hne l

/-- Witness for C5 at a concrete input. -/
theorem groupProjects_partition_correct_witness :
    (∀ grp ∈ groupedProjects "agency" [sampleA], grp.title = grp.key ∧
      grp.projects = [sampleA].filter
        (fun p => groupKeyOf "agency" p = grp.key)) ∧
    ((groupedProjects "agency" [sampleA]).map (fun grp => grp.key)).Pairwise
      (fun a b => strLt a b = true) ∧
    (∀ kk, kk ∈ (groupedProjects "agency" [sampleA]).map (fun grp => grp.key) ↔
      kk ∈ [sampleA].map (groupKeyOf "agency")) ∧
    List.Perm ((groupedProjects "agency" [sampleA]).flatMap
      (fun grp => grp.projects)) [sampleA] :=
  (groupProjects_partition_correct [sampleA]).2 "agency" (Or.inr rfl)

/-- C9.  Every `groupBy` value other than `none` and `author` — including
unrecognized strings hydrated from the URL — produces exactly the
`agency` grouping. -/
theorem groupBy_fallback_agency (gb : String) (h1 : gb ≠ "none")
    (h2 : gb ≠ "author") (l : List UniqueProject) :
    groupedProjects gb l = groupedProjects "agency" l := by
  have hk : groupKeyOf gb = groupKeyOf "agency" := by
    funext p
    simp [groupKeyOf, h2]
  simp [groupedProjects, buildGroups, hk, h1]

/-- Witness for C9 at a concrete input. -/
theorem groupBy_fallback_agency_witness :
    groupedProjects "bogus" [sampleA] = groupedProjects "agency" [sampleA] :=
  groupBy_fallback_agency "bogus" (by decide) (by decide) [sampleA]

/-! ## C8: fetch failure handling -/

/-- C8.  On a rejected request (any thrown value; for an `Error`, axios
always supplies a non-empty message, taken as hypothesis), `getProjects`
does not rethrow: it consumes exactly its one request outcome (no
automatic retry — the rest of the network script is returned untouched)
and resolves to `success = false` with a non-empty error message; and
`fetchProjects` turns that response into a non-loading error state with a
non-empty message, leaving the data and hence the page interactive. -/
theorem getProjects_failure_resilient (environment : String) (e : JSError)
    (rest : List NetOutcome) (prev : FetchState)
    (hmsg : ∀ m, e = JSError.error m → m ≠ "") :
    ∃ resp : ProjectsResponse,
      getProjectsRun environment (NetOutcome.failure e :: rest) =
        some (resp, rest) ∧
      resp.success = false ∧
      (∃ msg, resp.error = some msg ∧ msg ≠ "") ∧
      (fetchProjectsResult prev resp).loading = false ∧
      (∃ msg, (fetchProjectsResult prev resp).error = some msg ∧ msg ≠ "") ∧
      (fetchProjectsResult prev resp).data = prev.data := by
  cases e with
  | error m =>
    have hm : m ≠ "" := hmsg m rfl
    refine ⟨getProjects environment (.failure (.error m)), rfl, rfl,
      ⟨m, rfl, hm⟩, ?_, ⟨m, ?_, hm⟩, ?_⟩
    · simp [fetchProjectsResult, getProjects]
    · simp [fetchProjectsResult, getProjects, jsOrDefault, hm]
    · simp [fetchProjectsResult, getProjects]
  | other =>
    refine ⟨getProjects environment (.failure .other), rfl, rfl,
      ⟨"Unknown error occurred", rfl, by decide⟩, ?_,
      ⟨"Unknown error occurred", ?_, by decide⟩, ?_⟩
    · simp [fetchProjectsResult, getProjects]
    · simp [fetchProjectsResult, getProjects, jsOrDefault]
    · simp [fetchProjectsResult, getProjects]

/-- Witness for C8 at a concrete input. -/
theorem getProjects_failure_resilient_witness :
    ∃ resp : ProjectsResponse,
      getProjectsRun "local" (NetOutcome.failure JSError.other :: []) =
        some (resp, []) ∧
      resp.success = false ∧
      (∃ msg, resp.error = some msg ∧ msg ≠ "") ∧
      (fetchProjectsResult ⟨true, none, none⟩ resp).loading = false ∧
      (∃ msg, (fetchProjectsResult ⟨true, none, none⟩ resp).error = some msg ∧
        msg ≠ "") ∧
      (fetchProjectsResult ⟨true, none, none⟩ resp).data =
        (⟨true, none, none⟩ : FetchState).data :=
  getProjects_failure_resilient "local" JSError.other [] ⟨true, none, none⟩
    (fun _ h => JSError.noConfusion h)
